import Mathlib

/-!
Shallow embedding of `src/rush/rush/src/actions/GenerateAction.ts` (the
"rush generate" action) and proofs about it.

The JavaScript object used for `commonPackageJson.dependencies` is an
insertion-ordered string map: assigning to an existing key replaces the
value in place (the key keeps its original position), assigning a fresh
key appends it at the end.  We embed it as an association list with
exactly those semantics (`assocSet` / `assocGet`).
-/

namespace Rush

/-- JS-object write semantics: replace in place if the key is present,
otherwise append at the end. -/
def assocSet {β : Type} (m : List (String × β)) (k : String) (v : β) :
    List (String × β) :=
  match m with
  | [] => [(k, v)]
  | p :: rest => if p.1 = k then (k, v) :: rest else p :: assocSet rest k v

/-- JS-object read semantics (`obj[k]`, or `Map.get`): the value at the
first occurrence of the key, `none` when absent (JS `undefined`). -/
def assocGet {β : Type} (m : List (String × β)) (k : String) : Option β :=
  match m with
  | [] => none
  | p :: rest => if p.1 = k then some p.2 else assocGet rest k

/-- The dependency map of a manifest: dependency name to version string. -/
abbrev DepMap := List (String × String)

/-- A package.json document (`IPackageJson` from rush-lib): the fields the
generate action reads. -/
structure IPackageJson where
  name : String
  version : String
  dependencies : DepMap
deriving DecidableEq

/-- A project record from rush.json (`RushConfigurationProject`). -/
structure RushConfigurationProject where
  packageName : String
  tempProjectName : String
  packageJson : IPackageJson
deriving DecidableEq

/-- The synthesized `common/package.json` document built by
`_createCommonTempModulesAndPackageJson`. -/
structure CommonPackageJson where
  name : String
  version : String
  description : String
  isPrivate : Bool
  dependencies : DepMap
deriving DecidableEq

/-- The loaded rush configuration, restricted to the fields the generate
action uses.  `tempModules` is the map produced by the external
`TempModuleGenerator` (real package name to derived manifest). -/
structure RushConfiguration where
  pinnedVersions : DepMap
  projects : List RushConfigurationProject
  packageReviewFile : Bool
  tempModules : List (String × IPackageJson)

/-- Comparison used by the sort at GenerateAction.ts:90-92
(`a.tempProjectName.localeCompare(b.tempProjectName)`), embedded as the
dictionary order on the temp project names. -/
def projLE (a b : RushConfigurationProject) : Prop :=
  a.tempProjectName ≤ b.tempProjectName

instance : DecidableRel projLE := fun a b =>
  inferInstanceAs (Decidable (a.tempProjectName ≤ b.tempProjectName))

/-- GenerateAction.ts:89-92: copy the project list and sort it by
`tempProjectName`. -/
def sortedRushProjects (projects : List RushConfigurationProject) :
    List RushConfigurationProject :=
  projects.insertionSort projLE

/-- GenerateAction.ts:104: the local-file reference recorded for a temp
project. -/
def tempProjectRef (t : String) : String := "file:./temp_modules/" ++ t

/-- GenerateAction.ts:81-83: insert every pinned version into the
dependency map, in configuration order. -/
def addPinnedVersions (pinned : DepMap) (d : DepMap) : DepMap :=
  pinned.foldl (fun acc p => assocSet acc p.1 p.2) d

/-- GenerateAction.ts:96-109, the dependency-map part of the loop:
for each project (already sorted) insert
`tempProjectName -> "file:./temp_modules/" + tempProjectName`. -/
def addTempProjectDeps (projects : List RushConfigurationProject)
    (d : DepMap) : DepMap :=
  projects.foldl
    (fun acc p => assocSet acc p.tempProjectName (tempProjectRef p.tempProjectName)) d

/-- The in-memory `commonPackageJson` object as completed by
GenerateAction.ts:72-109: fixed metadata, pinned versions inserted first,
then one file reference per project in sorted order. -/
def commonPackageJsonOf (pinned : DepMap)
    (projects : List RushConfigurationProject) : CommonPackageJson :=
  { name := "rush-common"
    version := "0.0.0"
    description := "Temporary file generated by the Rush tool"
    isPrivate := true
    dependencies := addTempProjectDeps (sortedRushProjects projects) (addPinnedVersions pinned []) }

/-- GenerateAction.ts:96-108: the temp_modules directory contents written
by the loop, one subdirectory per project in sorted order, each holding the
document `tempModules.get(rushProject.packageName)` — an `Option` because
the lookup is unguarded and `JsonFile.saveJsonFile` receives whatever it
returns. -/
def tempModulesEntries (tempModules : List (String × IPackageJson))
    (projects : List RushConfigurationProject) :
    List (String × Option IPackageJson) :=
  (sortedRushProjects projects).map
    (fun p => (p.tempProjectName, assocGet tempModules p.packageName))

/-!
The filesystem state the pipeline manipulates, and the six-stage
`onExecute` sequence.  Each stage is a function on this state; external
effects (the review checker, mkdir retries, the npm tool) are modelled by
an environment of outcomes.  A stage that throws in the source is a stage
whose embedded function returns `Except.error`; the error carries the
filesystem state at the moment of the abort.
-/

/-- The on-disk state under the common folder that the generate action
touches: the entry names of `common/node_modules` (`none` = the directory
is absent), whether `common/npm-shrinkwrap.json` exists, the contents of
`common/temp_modules` (subdirectory name and the document written to its
package.json), and the contents of `common/package.json`. -/
structure FileSystem where
  nodeModules : Option (List String)
  shrinkwrapFile : Bool
  tempModulesDir : Option (List (String × Option IPackageJson))
  commonPackageJsonFile : Option CommonPackageJson
deriving DecidableEq

/-- The fatal errors the pipeline can abort with (§7 taxonomy; in the
source each is an exception propagating out of `onExecute`). -/
inductive GenerateError where
  | snapshotError
  | filesystemError
  | toolMissingError
  | processExitError
deriving DecidableEq

/-- Completion events, logged when a stage finishes. -/
inductive Stage where
  | loadConfiguration
  | snapshotDependencies
  | cleanNodeModules
  | deleteLockArtifact
  | deleteTempModulesRoot
  | recreateAndPopulate
  | ensureNpmTool
  | npmInstall
  | npmShrinkwrap
  | shrinkwrapSkipNotice
deriving DecidableEq

/-- Outcomes of the external effects: whether
`PackageReviewChecker.saveCurrentDependencies` succeeds (false = it
throws), the result of each mkdir attempt inside
`Utilities.createFolderWithRetry` together with its attempt bound, whether
the npm tool is available, the exit status of `npm install` and
`npm shrinkwrap`, and the node_modules contents a successful install
leaves behind. -/
structure Env where
  snapshotOk : Bool
  attempts : Nat → Bool
  maxAttempts : Nat
  npmToolOk : Bool
  npmInstallOk : Bool
  npmShrinkwrapOk : Bool
  installResult : List String

/-- The glob pattern `rush-*` of GenerateAction.ts:41: a directory entry
matches iff its first five characters are `rush-` (the star matches any
tail within the name). -/
def matchesRushGlob (e : String) : Bool := e.data.take 5 == "rush-".data

/-- GenerateAction.ts:32-50 (`_deleteCommonNodeModules`).  Lazy mode
recycles exactly the entries matched by the glob `rush-*` (names starting
with "rush-"); full mode recycles the whole directory if it exists.  A
glob over an absent directory matches nothing. -/
def deleteCommonNodeModules (isLazy : Bool) (fs : FileSystem) : FileSystem :=
  if isLazy then
    match fs.nodeModules with
    | none => fs
    | some entries =>
        { fs with nodeModules := some (entries.filter (fun e => !(matchesRushGlob e))) }
  else
    match fs.nodeModules with
    | none => fs
    | some _ => { fs with nodeModules := none }

/-- GenerateAction.ts:59-66 (`_deleteShrinkwrapFile`): delete
`common/npm-shrinkwrap.json` if it exists. -/
def deleteShrinkwrapFile (fs : FileSystem) : FileSystem :=
  if fs.shrinkwrapFile then { fs with shrinkwrapFile := false } else fs

/-- GenerateAction.ts:52-57 (`_deleteCommonTempModules`): delete
`common/temp_modules` if it exists. -/
def deleteCommonTempModules (fs : FileSystem) : FileSystem :=
  match fs.tempModulesDir with
  | none => fs
  | some _ => { fs with tempModulesDir := none }

/-- Modelled from the spec: `Utilities.createFolderWithRetry` (rush-lib,
not part of the supplied sources) retries directory creation up to a
bounded attempt count and fails once retries are exhausted.  It succeeds
iff some attempt within the bound succeeds. -/
def createFolderWithRetry (attempts : Nat → Bool) (maxAttempts : Nat) : Bool :=
  (List.range maxAttempts).any attempts

/-- GenerateAction.ts:68-114 (`_createCommonTempModulesAndPackageJson`):
create the temp_modules root with retry — exhaustion throws before any
subdirectory is created or any file is written — then populate the
subdirectories and write `common/package.json`. -/
def createCommonTempModulesAndPackageJson (cfg : RushConfiguration)
    (attempts : Nat → Bool) (maxAttempts : Nat) (fs : FileSystem) :
    Except GenerateError FileSystem :=
  if createFolderWithRetry attempts maxAttempts then
    Except.ok
      { fs with
        tempModulesDir := some (tempModulesEntries cfg.tempModules cfg.projects)
        commonPackageJsonFile := some (commonPackageJsonOf cfg.pinnedVersions cfg.projects) }
  else Except.error GenerateError.filesystemError

/-- The result of one `onExecute` run: the completed-stage trace and
either the final filesystem or the abort error paired with the filesystem
at the abort. -/
structure RunResult where
  trace : List Stage
  outcome : Except (GenerateError × FileSystem) FileSystem

/-- GenerateAction.ts:167-203 (`onExecute`): load the configuration, run
the review snapshot when a package review file is configured (no handler —
a throwing snapshot aborts the run), then the four filesystem stages, the
npm tool check, `npm install`, and `npm shrinkwrap` (skipped with a notice
in lazy mode). -/
def onExecute (cfg : RushConfiguration) (isLazy : Bool) (env : Env)
    (fs0 : FileSystem) : RunResult :=
  let rest := fun (t : List Stage) =>
    let fs1 := deleteCommonNodeModules isLazy fs0
    let t := t ++ [Stage.cleanNodeModules]
    let fs2 := deleteShrinkwrapFile fs1
    let t := t ++ [Stage.deleteLockArtifact]
    let fs3 := deleteCommonTempModules fs2
    let t := t ++ [Stage.deleteTempModulesRoot]
    match createCommonTempModulesAndPackageJson cfg env.attempts env.maxAttempts fs3 with
    | Except.error e => { trace := t, outcome := Except.error (e, fs3) }
    | Except.ok fs4 =>
      let t := t ++ [Stage.recreateAndPopulate]
      if env.npmToolOk then
        let t := t ++ [Stage.ensureNpmTool]
        if env.npmInstallOk then
          let fs5 := { fs4 with nodeModules := some env.installResult }
          let t := t ++ [Stage.npmInstall]
          if isLazy then
            { trace := t ++ [Stage.shrinkwrapSkipNotice], outcome := Except.ok fs5 }
          else if env.npmShrinkwrapOk then
            { trace := t ++ [Stage.npmShrinkwrap]
              outcome := Except.ok { fs5 with shrinkwrapFile := true } }
          else { trace := t, outcome := Except.error (GenerateError.processExitError, fs5) }
        else { trace := t, outcome := Except.error (GenerateError.processExitError, fs4) }
      else { trace := t, outcome := Except.error (GenerateError.toolMissingError, fs4) }
  if cfg.packageReviewFile then
    if env.snapshotOk then
      rest [Stage.loadConfiguration, Stage.snapshotDependencies]
    else
      { trace := [Stage.loadConfiguration]
        outcome := Except.error (GenerateError.snapshotError, fs0) }
  else rest [Stage.loadConfiguration]

/-- The complete stage trace of a run that finishes without a fatal
error, as a function of the two branch inputs (presence of the review
configuration, lazy flag). -/
def fullTrace (review isLazy : Bool) : List Stage :=
  [Stage.loadConfiguration]
    ++ (if review then [Stage.snapshotDependencies] else [])
    ++ [Stage.cleanNodeModules, Stage.deleteLockArtifact, Stage.deleteTempModulesRoot,
        Stage.recreateAndPopulate, Stage.ensureNpmTool, Stage.npmInstall]
    ++ (if isLazy then [Stage.shrinkwrapSkipNotice] else [Stage.npmShrinkwrap])

/-! Helper lemmas about the JS-object write/read semantics. -/

theorem assocGet_assocSet_self {β : Type} (m : List (String × β)) (k : String) (v : β) :
    assocGet (assocSet m k v) k = some v := by
  induction m with
  | nil => simp [assocSet, assocGet]
  | cons p rest ih =>
      by_cases h : p.1 = k
      · simp [assocSet, assocGet, h]
      · simp [assocSet, assocGet, h, ih]

theorem assocGet_assocSet_of_ne {β : Type} (m : List (String × β)) (k : String) (v : β)
    (a : String) (h : a ≠ k) : assocGet (assocSet m k v) a = assocGet m a := by
  induction m with
  | nil =>
      have hk : ¬(k = a) := fun hh => h hh.symm
      simp [assocSet, assocGet, hk]
  | cons p rest ih =>
      by_cases hp : p.1 = k
      · have hpa : ¬(p.1 = a) := fun hh => h (hh.symm.trans hp)
        have hka : ¬(k = a) := fun hh => h hh.symm
        simp [assocSet, assocGet, hp, hpa, hka]
      · by_cases hpa : p.1 = a
        · simp [assocSet, assocGet, hp, hpa, h]
        · simp [assocSet, assocGet, hp, hpa, ih]

theorem assocSet_of_keys_ne {β : Type} (m : List (String × β)) (k : String) (v : β)
    (h : ∀ p ∈ m, p.1 ≠ k) : assocSet m k v = m ++ [(k, v)] := by
  induction m with
  | nil => simp [assocSet]
  | cons p rest ih =>
      have hp : ¬(p.1 = k) := h p (by simp)
      simp only [assocSet, hp, if_false, List.cons_append, List.cons.injEq, true_and]
      exact ih (fun q hq => h q (by simp [hq]))

/-! Helper lemmas about the two insertion folds of
`_createCommonTempModulesAndPackageJson`. -/

theorem addPinnedVersions_cons (q : String × String) (rest : DepMap) (d : DepMap) :
    addPinnedVersions (q :: rest) d = addPinnedVersions rest (assocSet d q.1 q.2) := rfl

theorem addPinnedVersions_append_of_disjoint :
    ∀ (pinned d : DepMap), (pinned.map Prod.fst).Nodup →
      (∀ q ∈ pinned, ∀ x ∈ d, x.1 ≠ q.1) →
      addPinnedVersions pinned d = d ++ pinned := by
  intro pinned
  induction pinned with
  | nil => intro d _ _; simp [addPinnedVersions]
  | cons q rest ih =>
      intro d hnd hdisj
      rw [List.map_cons, List.nodup_cons] at hnd
      have hstep : assocSet d q.1 q.2 = d ++ [(q.1, q.2)] :=
        assocSet_of_keys_ne d q.1 q.2 (fun x hx => hdisj q (by simp) x hx)
      rw [addPinnedVersions_cons, hstep, ih (d ++ [(q.1, q.2)]) hnd.2 ?_]
      · simp
      · intro q' hq' x hx
        rcases List.mem_append.mp hx with hxd | hxq
        · exact hdisj q' (by simp [hq']) x hxd
        · have hx1 : x.1 = q.1 := by
            have : x = (q.1, q.2) := by simpa using hxq
            rw [this]
          rw [hx1]
          intro hcontra
          exact hnd.1 (by rw [hcontra]; exact List.mem_map_of_mem Prod.fst hq')

theorem addTempProjectDeps_cons (p : RushConfigurationProject)
    (rest : List RushConfigurationProject) (d : DepMap) :
    addTempProjectDeps (p :: rest) d
      = addTempProjectDeps rest
          (assocSet d p.tempProjectName (tempProjectRef p.tempProjectName)) := rfl

theorem assocGet_addTempProjectDeps_of_not_mem :
    ∀ (l : List RushConfigurationProject) (d : DepMap) (a : String),
      a ∉ l.map RushConfigurationProject.tempProjectName →
      assocGet (addTempProjectDeps l d) a = assocGet d a := by
  intro l
  induction l with
  | nil => intro d a _; rfl
  | cons p rest ih =>
      intro d a ha
      rw [List.map_cons, List.mem_cons] at ha
      push_neg at ha
      rw [addTempProjectDeps_cons, ih _ _ ha.2,
        assocGet_assocSet_of_ne _ _ _ _ ha.1]

theorem assocGet_addTempProjectDeps_of_mem :
    ∀ (l : List RushConfigurationProject) (d : DepMap) (a : String),
      a ∈ l.map RushConfigurationProject.tempProjectName →
      assocGet (addTempProjectDeps l d) a = some (tempProjectRef a) := by
  intro l
  induction l with
  | nil => intro d a ha; simp at ha
  | cons p rest ih =>
      intro d a ha
      by_cases hmem : a ∈ rest.map RushConfigurationProject.tempProjectName
      · rw [addTempProjectDeps_cons]
        exact ih _ _ hmem
      · have ha' : a = p.tempProjectName := by
          rw [List.map_cons, List.mem_cons] at ha
          exact ha.resolve_right hmem
        rw [addTempProjectDeps_cons, assocGet_addTempProjectDeps_of_not_mem _ _ _ hmem,
          ha', assocGet_assocSet_self]

theorem addTempProjectDeps_append_of_disjoint :
    ∀ (l : List RushConfigurationProject) (d : DepMap),
      (l.map RushConfigurationProject.tempProjectName).Nodup →
      (∀ p ∈ l, ∀ q ∈ d, q.1 ≠ p.tempProjectName) →
      addTempProjectDeps l d
        = d ++ l.map (fun p => (p.tempProjectName, tempProjectRef p.tempProjectName)) := by
  intro l
  induction l with
  | nil => intro d _ _; simp [addTempProjectDeps]
  | cons p rest ih =>
      intro d hnd hdisj
      rw [List.map_cons, List.nodup_cons] at hnd
      have hstep : assocSet d p.tempProjectName (tempProjectRef p.tempProjectName)
          = d ++ [(p.tempProjectName, tempProjectRef p.tempProjectName)] :=
        assocSet_of_keys_ne _ _ _ (fun q hq => hdisj p (by simp) q hq)
      rw [addTempProjectDeps_cons, hstep, ih _ hnd.2 ?_]
      · simp
      · intro p' hp' q hq
        rcases List.mem_append.mp hq with hqd | hqp
        · exact hdisj p' (by simp [hp']) q hqd
        · have hq1 : q.1 = p.tempProjectName := by
            have : q = (p.tempProjectName, tempProjectRef p.tempProjectName) := by
              simpa using hqp
            rw [this]
          rw [hq1]
          intro hcontra
          exact hnd.1 (by rw [hcontra]; exact List.mem_map_of_mem _ hp')

/-! The dependency fold only reads each project's `tempProjectName`, and the
sort compares only `tempProjectName`, so the root manifest is a function of
the list of temp project names. -/

theorem addTempProjectDeps_eq_foldl_map (l : List RushConfigurationProject) (d : DepMap) :
    addTempProjectDeps l d
      = (l.map RushConfigurationProject.tempProjectName).foldl
          (fun acc a => assocSet acc a (tempProjectRef a)) d := by
  rw [List.foldl_map]
  rfl

theorem sortedRushProjects_map_tempProjectName (l : List RushConfigurationProject) :
    (sortedRushProjects l).map RushConfigurationProject.tempProjectName
      = (l.map RushConfigurationProject.tempProjectName).insertionSort
          (fun a b : String => a ≤ b) :=
  List.map_insertionSort projLE (fun a b : String => a ≤ b)
    RushConfigurationProject.tempProjectName l (fun _ _ _ _ => Iff.rfl)

theorem sortedRushProjects_map_sorted (l : List RushConfigurationProject) :
    List.Sorted (fun a b : String => a ≤ b)
      ((sortedRushProjects l).map RushConfigurationProject.tempProjectName) := by
  rw [sortedRushProjects_map_tempProjectName]
  exact List.sorted_insertionSort _ _

theorem sortedRushProjects_perm (l : List RushConfigurationProject) :
    (sortedRushProjects l).Perm l :=
  List.perm_insertionSort projLE l

/-- C1 counterexample: with pinned entry `rush-proj1 -> 1.2.3` and a project
whose temp alias is also `rush-proj1`, the final root manifest maps that
name to the temp-module file reference, not to the pinned version, and no
error is raised (the builder is total).  The pinned entry does not win. -/
theorem pinned_version_overwritten_counterexample :
    assocGet (commonPackageJsonOf [("rush-proj1", "1.2.3")]
        [⟨"proj1", "rush-proj1", ⟨"proj1", "0.0.1", []⟩⟩]).dependencies "rush-proj1"
      = some "file:./temp_modules/rush-proj1"
    ∧ assocGet (commonPackageJsonOf [("rush-proj1", "1.2.3")]
        [⟨"proj1", "rush-proj1", ⟨"proj1", "0.0.1", []⟩⟩]).dependencies "rush-proj1"
      ≠ some "1.2.3" := by
  decide

/-- C1 (amended): when a dependency name in the pinned-version table also
occurs as a project's temp alias, the temp-module file reference silently
overwrites the pinned version in the final root manifest (the later
assignment in `_createCommonTempModulesAndPackageJson` wins); no error is
surfaced.  In general every project's temp alias maps to its file
reference in the final manifest, whatever the pinned table contains. -/
theorem collision_yields_temp_ref (pinned : DepMap)
    (projects : List RushConfigurationProject) (a : String)
    (ha : a ∈ projects.map RushConfigurationProject.tempProjectName) :
    assocGet (commonPackageJsonOf pinned projects).dependencies a
      = some (tempProjectRef a) := by
  have ha' : a ∈ (sortedRushProjects projects).map RushConfigurationProject.tempProjectName :=
    (((sortedRushProjects_perm projects).map _).mem_iff).mpr ha
  exact assocGet_addTempProjectDeps_of_mem _ _ _ ha'

/-- Witness for `collision_yields_temp_ref` at the collision input. -/
theorem collision_yields_temp_ref_witness :
    assocGet (commonPackageJsonOf [("rush-proj1", "1.2.3")]
        [⟨"proj1", "rush-proj1", ⟨"proj1", "0.0.1", []⟩⟩]).dependencies "rush-proj1"
      = some (tempProjectRef "rush-proj1") :=
  collision_yields_temp_ref _ _ _ (by decide)

/-- C2: the root-manifest construction is a pure function of the pinned
table and the project list, and its result does not depend on the original
order of the project list: permuting the projects yields the identical
`CommonPackageJson` value (hence byte-identical serialized output for a
deterministic JSON writer), because the construction sorts by temp project
name and dictionary order on names is antisymmetric. -/
theorem commonPackageJsonOf_deterministic (pinned : DepMap)
    (l1 l2 : List RushConfigurationProject) (h : l1.Perm l2) :
    commonPackageJsonOf pinned l1 = commonPackageJsonOf pinned l2 := by
  have halias :
      (sortedRushProjects l1).map RushConfigurationProject.tempProjectName
        = (sortedRushProjects l2).map RushConfigurationProject.tempProjectName := by
    rw [sortedRushProjects_map_tempProjectName, sortedRushProjects_map_tempProjectName]
    refine List.eq_of_perm_of_sorted ?_
      (List.sorted_insertionSort _ _) (List.sorted_insertionSort _ _)
    exact (List.perm_insertionSort _ _).trans
      ((h.map _).trans (List.perm_insertionSort _ _).symm)
  unfold commonPackageJsonOf
  simp only [CommonPackageJson.mk.injEq, true_and]
  rw [addTempProjectDeps_eq_foldl_map, addTempProjectDeps_eq_foldl_map, halias]

/-- Witness for `commonPackageJsonOf_deterministic`: two reorderings of
the same two projects produce the same manifest. -/
theorem commonPackageJsonOf_deterministic_witness :
    commonPackageJsonOf [("lodash", "1.0.0")]
        [⟨"b-pkg", "rush-b", ⟨"b-pkg", "1.0.0", []⟩⟩,
         ⟨"a-pkg", "rush-a", ⟨"a-pkg", "1.0.0", []⟩⟩]
      = commonPackageJsonOf [("lodash", "1.0.0")]
        [⟨"a-pkg", "rush-a", ⟨"a-pkg", "1.0.0", []⟩⟩,
         ⟨"b-pkg", "rush-b", ⟨"b-pkg", "1.0.0", []⟩⟩] :=
  commonPackageJsonOf_deterministic _ _ _ (List.Perm.swap _ _ _)

/-- C3: with distinct temp aliases that do not collide with pinned names
(and a duplicate-free pinned table), the root manifest's dependency map is
exactly the pinned entries in configuration order followed by one
`tempProjectName -> "file:./temp_modules/" ++ tempProjectName` reference
per project, and the references are sorted ascending by temp project
name. -/
theorem rootManifest_pinned_then_sorted_refs (pinned : DepMap)
    (projects : List RushConfigurationProject)
    (hpin : (pinned.map Prod.fst).Nodup)
    (hnd : (projects.map RushConfigurationProject.tempProjectName).Nodup)
    (hdisj : ∀ p ∈ projects, ∀ q ∈ pinned, q.1 ≠ p.tempProjectName) :
    (commonPackageJsonOf pinned projects).dependencies
      = pinned ++ (sortedRushProjects projects).map
          (fun p => (p.tempProjectName, tempProjectRef p.tempProjectName))
    ∧ List.Sorted (fun a b : String => a ≤ b)
        ((sortedRushProjects projects).map RushConfigurationProject.tempProjectName) := by
  constructor
  · have hpinned : addPinnedVersions pinned [] = pinned := by
      have := addPinnedVersions_append_of_disjoint pinned [] hpin (by simp)
      simpa using this
    have hnd' : ((sortedRushProjects projects).map
        RushConfigurationProject.tempProjectName).Nodup :=
      (((sortedRushProjects_perm projects).map _).nodup_iff).mpr hnd
    have hdisj' : ∀ p ∈ sortedRushProjects projects, ∀ q ∈ pinned,
        q.1 ≠ p.tempProjectName :=
      fun p hp => hdisj p ((sortedRushProjects_perm projects).subset hp)
    show addTempProjectDeps (sortedRushProjects projects) (addPinnedVersions pinned []) = _
    rw [hpinned, addTempProjectDeps_append_of_disjoint _ _ hnd' hdisj']
  · exact sortedRushProjects_map_sorted projects

/-- Witness for `rootManifest_pinned_then_sorted_refs`: two projects given
in reverse alias order come out after the pinned entry, sorted. -/
theorem rootManifest_pinned_then_sorted_refs_witness :
    (commonPackageJsonOf [("lodash", "1.0.0")]
        [⟨"b-pkg", "rush-b", ⟨"b-pkg", "1.0.0", []⟩⟩,
         ⟨"a-pkg", "rush-a", ⟨"a-pkg", "1.0.0", []⟩⟩]).dependencies
      = [("lodash", "1.0.0")] ++ (sortedRushProjects
          [⟨"b-pkg", "rush-b", ⟨"b-pkg", "1.0.0", []⟩⟩,
           ⟨"a-pkg", "rush-a", ⟨"a-pkg", "1.0.0", []⟩⟩]).map
            (fun p => (p.tempProjectName, tempProjectRef p.tempProjectName))
    ∧ List.Sorted (fun a b : String => a ≤ b)
        ((sortedRushProjects
          [⟨"b-pkg", "rush-b", ⟨"b-pkg", "1.0.0", []⟩⟩,
           ⟨"a-pkg", "rush-a", ⟨"a-pkg", "1.0.0", []⟩⟩]).map
            RushConfigurationProject.tempProjectName) :=
  rootManifest_pinned_then_sorted_refs _ _ (by decide) (by decide) (by decide)

/-! Frame lemmas: what each teardown stage leaves untouched. -/

@[simp]
theorem shrinkwrapFile_deleteCommonNodeModules (isLazy : Bool) (fs : FileSystem) :
    (deleteCommonNodeModules isLazy fs).shrinkwrapFile = fs.shrinkwrapFile := by
  cases isLazy <;> cases h : fs.nodeModules <;> simp [deleteCommonNodeModules, h]

@[simp]
theorem tempModulesDir_deleteCommonNodeModules (isLazy : Bool) (fs : FileSystem) :
    (deleteCommonNodeModules isLazy fs).tempModulesDir = fs.tempModulesDir := by
  cases isLazy <;> cases h : fs.nodeModules <;> simp [deleteCommonNodeModules, h]

@[simp]
theorem commonPackageJsonFile_deleteCommonNodeModules (isLazy : Bool) (fs : FileSystem) :
    (deleteCommonNodeModules isLazy fs).commonPackageJsonFile = fs.commonPackageJsonFile := by
  cases isLazy <;> cases h : fs.nodeModules <;> simp [deleteCommonNodeModules, h]

@[simp]
theorem shrinkwrapFile_deleteShrinkwrapFile (fs : FileSystem) :
    (deleteShrinkwrapFile fs).shrinkwrapFile = false := by
  by_cases h : fs.shrinkwrapFile <;> simp [deleteShrinkwrapFile, h]

@[simp]
theorem nodeModules_deleteShrinkwrapFile (fs : FileSystem) :
    (deleteShrinkwrapFile fs).nodeModules = fs.nodeModules := by
  by_cases h : fs.shrinkwrapFile <;> simp [deleteShrinkwrapFile, h]

@[simp]
theorem tempModulesDir_deleteShrinkwrapFile (fs : FileSystem) :
    (deleteShrinkwrapFile fs).tempModulesDir = fs.tempModulesDir := by
  by_cases h : fs.shrinkwrapFile <;> simp [deleteShrinkwrapFile, h]

@[simp]
theorem commonPackageJsonFile_deleteShrinkwrapFile (fs : FileSystem) :
    (deleteShrinkwrapFile fs).commonPackageJsonFile = fs.commonPackageJsonFile := by
  by_cases h : fs.shrinkwrapFile <;> simp [deleteShrinkwrapFile, h]

@[simp]
theorem tempModulesDir_deleteCommonTempModules (fs : FileSystem) :
    (deleteCommonTempModules fs).tempModulesDir = none := by
  cases h : fs.tempModulesDir <;> simp [deleteCommonTempModules, h]

@[simp]
theorem shrinkwrapFile_deleteCommonTempModules (fs : FileSystem) :
    (deleteCommonTempModules fs).shrinkwrapFile = fs.shrinkwrapFile := by
  cases h : fs.tempModulesDir <;> simp [deleteCommonTempModules, h]

@[simp]
theorem nodeModules_deleteCommonTempModules (fs : FileSystem) :
    (deleteCommonTempModules fs).nodeModules = fs.nodeModules := by
  cases h : fs.tempModulesDir <;> simp [deleteCommonTempModules, h]

@[simp]
theorem commonPackageJsonFile_deleteCommonTempModules (fs : FileSystem) :
    (deleteCommonTempModules fs).commonPackageJsonFile = fs.commonPackageJsonFile := by
  cases h : fs.tempModulesDir <;> simp [deleteCommonTempModules, h]

/-- C4: lazy-mode cleanup keeps the shared install directory and removes
exactly the entries whose names match the `rush-*` temp-module naming
convention — an entry survives iff its name does not start with `rush-` —
while full-mode cleanup removes the directory wholesale. -/
theorem cleanNodeModules_scope (fs : FileSystem) (entries : List String)
    (h : fs.nodeModules = some entries) :
    (deleteCommonNodeModules true fs).nodeModules
      = some (entries.filter (fun e => !(matchesRushGlob e)))
    ∧ (∀ e ∈ entries,
        e ∈ entries.filter (fun e => !(matchesRushGlob e))
          ↔ matchesRushGlob e = false)
    ∧ (deleteCommonNodeModules false fs).nodeModules = none := by
  refine ⟨?_, ?_, ?_⟩
  · simp [deleteCommonNodeModules, h]
  · intro e he
    simp [List.mem_filter, he]
  · simp [deleteCommonNodeModules, h]

/-- Witness for `cleanNodeModules_scope` on a directory holding `rush-foo`
and `lodash`: lazy keeps only `lodash`, full removes the directory. -/
theorem cleanNodeModules_scope_witness :
    (deleteCommonNodeModules true ⟨some ["rush-foo", "lodash"], false, none, none⟩).nodeModules
      = some ["lodash"]
    ∧ (deleteCommonNodeModules false ⟨some ["rush-foo", "lodash"], false, none, none⟩).nodeModules
      = none := by
  have h := cleanNodeModules_scope ⟨some ["rush-foo", "lodash"], false, none, none⟩
    ["rush-foo", "lodash"] rfl
  exact ⟨by rw [h.1]; decide, h.2.2⟩

/-- C9: every teardown stage is guarded by an existence check (or an empty
glob result): on a workspace where the shared install directory, the lock
artifact and the temp-modules root are all absent, each teardown function
is the identity (a no-op, with no error path). -/
theorem teardown_noop_on_fresh (isLazy : Bool) (fs : FileSystem)
    (h1 : fs.nodeModules = none) (h2 : fs.shrinkwrapFile = false)
    (h3 : fs.tempModulesDir = none) :
    deleteCommonNodeModules isLazy fs = fs
    ∧ deleteShrinkwrapFile fs = fs
    ∧ deleteCommonTempModules fs = fs := by
  refine ⟨?_, ?_, ?_⟩
  · cases isLazy <;> simp [deleteCommonNodeModules, h1]
  · simp [deleteShrinkwrapFile, h2]
  · simp [deleteCommonTempModules, h3]

/-- Witness for `teardown_noop_on_fresh` on the empty workspace. -/
theorem teardown_noop_on_fresh_witness :
    deleteCommonNodeModules true ⟨none, false, none, none⟩
        = (⟨none, false, none, none⟩ : FileSystem)
    ∧ deleteShrinkwrapFile ⟨none, false, none, none⟩
        = (⟨none, false, none, none⟩ : FileSystem)
    ∧ deleteCommonTempModules ⟨none, false, none, none⟩
        = (⟨none, false, none, none⟩ : FileSystem) :=
  teardown_noop_on_fresh true _ rfl rfl rfl

/-- C10: the populate loop looks the project's real `packageName` up in the
temp-module map and passes the result to the JSON writer with no guard:
when the map has no entry for a project, the stage still succeeds and the
document written for that project's temp directory is `none`
(JS `undefined`) — no `ManifestError` or other error is detected. -/
theorem populate_unguarded_lookup (cfg : RushConfiguration)
    (attempts : Nat → Bool) (maxAttempts : Nat) (fs : FileSystem)
    (hcreate : createFolderWithRetry attempts maxAttempts = true)
    (p : RushConfigurationProject) (hp : p ∈ cfg.projects)
    (hmiss : assocGet cfg.tempModules p.packageName = none) :
    ∃ fs1, createCommonTempModulesAndPackageJson cfg attempts maxAttempts fs
        = Except.ok fs1
      ∧ (p.tempProjectName, (none : Option IPackageJson))
          ∈ fs1.tempModulesDir.getD [] := by
  refine ⟨{ fs with
      tempModulesDir := some (tempModulesEntries cfg.tempModules cfg.projects)
      commonPackageJsonFile := some (commonPackageJsonOf cfg.pinnedVersions cfg.projects) },
    ?_, ?_⟩
  · simp [createCommonTempModulesAndPackageJson, hcreate]
  · have hps : p ∈ sortedRushProjects cfg.projects :=
      ((sortedRushProjects_perm cfg.projects).mem_iff).mpr hp
    have hmem : (p.tempProjectName, assocGet cfg.tempModules p.packageName)
        ∈ tempModulesEntries cfg.tempModules cfg.projects :=
      List.mem_map_of_mem _ hps
    rw [hmiss] at hmem
    simpa using hmem

/-- Witness for `populate_unguarded_lookup`: one project, empty temp-module
map — the stage succeeds and writes `none` for the project. -/
theorem populate_unguarded_lookup_witness :
    ∃ fs1, createCommonTempModulesAndPackageJson
          ⟨[], [⟨"proj1", "rush-proj1", ⟨"proj1", "0.0.1", []⟩⟩], false, []⟩
          (fun _ => true) 1 ⟨none, false, none, none⟩
        = Except.ok fs1
      ∧ ("rush-proj1", (none : Option IPackageJson)) ∈ fs1.tempModulesDir.getD [] :=
  populate_unguarded_lookup _ _ 1 _ (by decide)
    ⟨"proj1", "rush-proj1", ⟨"proj1", "0.0.1", []⟩⟩ (by decide) rfl

/-- C5: the pipeline performs its stages strictly in the fixed order —
configuration load (with the optional snapshot), CleanNodeModules,
DeleteLockArtifact, DeleteTempModulesRoot, RecreateAndPopulate, npm tool
check, then Install and Freeze (or the lazy skip notice).  A run that ends
without a fatal error completes exactly the full sequence; every run's
completed-stage trace is an initial segment of that sequence, so no stage
starts before its predecessor completes and none is skipped except by the
mode branches. -/
theorem onExecute_stage_order (cfg : RushConfiguration) (isLazy : Bool)
    (env : Env) (fs0 : FileSystem) :
    (∀ fs1, (onExecute cfg isLazy env fs0).outcome = Except.ok fs1 →
        (onExecute cfg isLazy env fs0).trace = fullTrace cfg.packageReviewFile isLazy)
    ∧ ∃ t, (onExecute cfg isLazy env fs0).trace ++ t
        = fullTrace cfg.packageReviewFile isLazy := by
  refine ⟨?_, ?_⟩
  · intro fs1 h
    cases hrev : cfg.packageReviewFile <;>
      cases hsnap : env.snapshotOk <;>
      cases hcre : createFolderWithRetry env.attempts env.maxAttempts <;>
      cases htool : env.npmToolOk <;>
      cases hinst : env.npmInstallOk <;>
      cases hshr : env.npmShrinkwrapOk <;>
      cases isLazy <;>
      simp_all [onExecute, fullTrace, createCommonTempModulesAndPackageJson]
  · cases hrev : cfg.packageReviewFile <;>
      cases hsnap : env.snapshotOk <;>
      cases hcre : createFolderWithRetry env.attempts env.maxAttempts <;>
      cases htool : env.npmToolOk <;>
      cases hinst : env.npmInstallOk <;>
      cases hshr : env.npmShrinkwrapOk <;>
      cases isLazy <;>
      simp only [onExecute, fullTrace, createCommonTempModulesAndPackageJson,
        hrev, hsnap, hcre, htool, hinst, hshr, if_true, if_false,
        Bool.false_eq_true, Bool.true_eq_false, ite_true, ite_false,
        List.cons_append, List.nil_append, List.append_assoc] <;>
      exact ⟨_, rfl⟩

/-- Witness for `onExecute_stage_order`: a fully successful full-mode run
with a review file completes exactly the full stage sequence. -/
theorem onExecute_stage_order_witness :
    (onExecute ⟨[], [], true, []⟩ false ⟨true, fun _ => true, 1, true, true, true, []⟩
        ⟨none, false, none, none⟩).trace
      = fullTrace true false :=
  (onExecute_stage_order ⟨[], [], true, []⟩ false
      ⟨true, fun _ => true, 1, true, true, true, []⟩ ⟨none, false, none, none⟩).1 _ rfl

/-- C6: in lazy mode the freeze operation is never invoked — no run trace
ever contains the shrinkwrap stage — and a run that finishes leaves no lock
artifact on disk (its only lock-artifact effect was the deletion in the
DeleteLockArtifact stage) and has emitted the explicit skip notice. -/
theorem lazy_never_freezes (cfg : RushConfiguration) (env : Env) (fs0 : FileSystem) :
    Stage.npmShrinkwrap ∉ (onExecute cfg true env fs0).trace
    ∧ (∀ fs1, (onExecute cfg true env fs0).outcome = Except.ok fs1 →
        fs1.shrinkwrapFile = false
        ∧ Stage.shrinkwrapSkipNotice ∈ (onExecute cfg true env fs0).trace) := by
  refine ⟨?_, ?_⟩
  · cases hrev : cfg.packageReviewFile <;>
      cases hsnap : env.snapshotOk <;>
      cases hcre : createFolderWithRetry env.attempts env.maxAttempts <;>
      cases htool : env.npmToolOk <;>
      cases hinst : env.npmInstallOk <;>
      simp_all [onExecute, createCommonTempModulesAndPackageJson]
  · intro fs1 h
    cases hrev : cfg.packageReviewFile <;>
      cases hsnap : env.snapshotOk <;>
      cases hcre : createFolderWithRetry env.attempts env.maxAttempts <;>
      cases htool : env.npmToolOk <;>
      cases hinst : env.npmInstallOk <;>
      simp_all [onExecute, createCommonTempModulesAndPackageJson] <;>
      rw [← h]

/-- Witness for `lazy_never_freezes`: a completed lazy run has no
shrinkwrap stage in its trace and did emit the skip notice. -/
theorem lazy_never_freezes_witness :
    Stage.npmShrinkwrap ∉ (onExecute ⟨[], [], false, []⟩ true
        ⟨true, fun _ => true, 1, true, true, true, []⟩ ⟨none, false, none, none⟩).trace
    ∧ Stage.shrinkwrapSkipNotice ∈ (onExecute ⟨[], [], false, []⟩ true
        ⟨true, fun _ => true, 1, true, true, true, []⟩ ⟨none, false, none, none⟩).trace :=
  ⟨(lazy_never_freezes ⟨[], [], false, []⟩
      ⟨true, fun _ => true, 1, true, true, true, []⟩ ⟨none, false, none, none⟩).1,
   ((lazy_never_freezes ⟨[], [], false, []⟩
      ⟨true, fun _ => true, 1, true, true, true, []⟩ ⟨none, false, none, none⟩).2 _ rfl).2⟩

/-- C7 counterexample: with a review file configured and a snapshot that
fails, `onExecute` aborts immediately — the run ends with `snapshotError`
and no teardown stage ever runs.  This contradicts the claim that a
snapshot failure is non-fatal to the generate run: the call at
GenerateAction.ts:176 has no exception handler. -/
theorem snapshot_failure_aborts_counterexample :
    (onExecute ⟨[], [], true, []⟩ false ⟨false, fun _ => true, 1, true, true, true, []⟩
        ⟨none, false, none, none⟩).outcome
      = Except.error (GenerateError.snapshotError, ⟨none, false, none, none⟩)
    ∧ Stage.cleanNodeModules ∉ (onExecute ⟨[], [], true, []⟩ false
        ⟨false, fun _ => true, 1, true, true, true, []⟩ ⟨none, false, none, none⟩).trace := by
  exact ⟨rfl, by decide⟩

/-- C7 (amended): when a review configuration is present the snapshot
operation runs exactly once, strictly before any teardown stage (it is the
second completed stage, never repeated); but a snapshot failure is fatal —
it aborts the run before CleanNodeModules, rather than being survived. -/
theorem snapshot_once_before_teardown (cfg : RushConfiguration) (isLazy : Bool)
    (env : Env) (fs0 : FileSystem) (hrev : cfg.packageReviewFile = true) :
    (env.snapshotOk = true →
      ∃ t, (onExecute cfg isLazy env fs0).trace
          = Stage.loadConfiguration :: Stage.snapshotDependencies :: t
        ∧ Stage.snapshotDependencies ∉ t)
    ∧ (env.snapshotOk = false →
      (onExecute cfg isLazy env fs0).outcome
          = Except.error (GenerateError.snapshotError, fs0)
      ∧ Stage.cleanNodeModules ∉ (onExecute cfg isLazy env fs0).trace) := by
  refine ⟨?_, ?_⟩
  · intro hs
    cases hcre : createFolderWithRetry env.attempts env.maxAttempts <;>
      cases htool : env.npmToolOk <;>
      cases hinst : env.npmInstallOk <;>
      cases hshr : env.npmShrinkwrapOk <;>
      cases isLazy <;>
      simp only [onExecute, createCommonTempModulesAndPackageJson,
        hrev, hs, hcre, htool, hinst, hshr, if_true, if_false,
        Bool.false_eq_true, Bool.true_eq_false, ite_true, ite_false,
        List.cons_append, List.nil_append, List.append_assoc] <;>
      exact ⟨_, rfl, by decide⟩
  · intro hs
    refine ⟨?_, ?_⟩ <;> simp [onExecute, hrev, hs]

/-- Witness for `snapshot_once_before_teardown` on a successful run with a
review file present. -/
theorem snapshot_once_before_teardown_witness :
    ∃ t, (onExecute ⟨[], [], true, []⟩ false ⟨true, fun _ => true, 1, true, true, true, []⟩
        ⟨none, false, none, none⟩).trace
      = Stage.loadConfiguration :: Stage.snapshotDependencies :: t
    ∧ Stage.snapshotDependencies ∉ t :=
  (snapshot_once_before_teardown ⟨[], [], true, []⟩ false
      ⟨true, fun _ => true, 1, true, true, true, []⟩ ⟨none, false, none, none⟩ rfl).1 rfl

/-- C8: if every attempt to create the temp-modules root fails (retries
exhausted), the run aborts with the filesystem error: at the abort the
temp-modules directory does not exist (no subdirectory or temp manifest
was created), the root install manifest on disk is untouched, and the
populate stage never completes. -/
theorem retry_exhaustion_aborts (cfg : RushConfiguration) (isLazy : Bool)
    (env : Env) (fs0 : FileSystem)
    (hsnap : cfg.packageReviewFile = true → env.snapshotOk = true)
    (hfail : createFolderWithRetry env.attempts env.maxAttempts = false) :
    ∃ fsa, (onExecute cfg isLazy env fs0).outcome
        = Except.error (GenerateError.filesystemError, fsa)
      ∧ fsa.tempModulesDir = none
      ∧ fsa.commonPackageJsonFile = fs0.commonPackageJsonFile
      ∧ Stage.recreateAndPopulate ∉ (onExecute cfg isLazy env fs0).trace := by
  refine ⟨deleteCommonTempModules (deleteShrinkwrapFile (deleteCommonNodeModules isLazy fs0)),
    ?_, ?_, ?_, ?_⟩
  · cases hrev : cfg.packageReviewFile
    · simp [onExecute, hrev, createCommonTempModulesAndPackageJson, hfail]
    · simp [onExecute, hrev, hsnap hrev, createCommonTempModulesAndPackageJson, hfail]
  · simp
  · simp
  · cases hrev : cfg.packageReviewFile
    · simp [onExecute, hrev, createCommonTempModulesAndPackageJson, hfail]
    · simp [onExecute, hrev, hsnap hrev, createCommonTempModulesAndPackageJson, hfail]

/-- Witness for `retry_exhaustion_aborts`: an environment whose mkdir
attempts all fail aborts the run with the filesystem error. -/
theorem retry_exhaustion_aborts_witness :
    ∃ fsa, (onExecute ⟨[], [], false, []⟩ false ⟨true, fun _ => false, 3, true, true, true, []⟩
        ⟨none, false, none, none⟩).outcome
        = Except.error (GenerateError.filesystemError, fsa)
      ∧ fsa.tempModulesDir = none
      ∧ fsa.commonPackageJsonFile
          = (⟨none, false, none, none⟩ : FileSystem).commonPackageJsonFile
      ∧ Stage.recreateAndPopulate ∉ (onExecute ⟨[], [], false, []⟩ false
          ⟨true, fun _ => false, 3, true, true, true, []⟩ ⟨none, false, none, none⟩).trace :=
  retry_exhaustion_aborts ⟨[], [], false, []⟩ false
    ⟨true, fun _ => false, 3, true, true, true, []⟩ ⟨none, false, none, none⟩
    (fun h => by simp at h) (by decide)

end Rush
